import Mathlib

/-!
# Verification of the LLM trading agent core

Shallow embedding of the position lifecycle, trade ledger, P&L computation,
signal extraction, stream processing and scheduler timing of the
`LLM_Trading_Agent` repository, together with theorems settling the frozen
claims about them.

Prices, sizes and P&L values are modelled as rationals; the concrete values
appearing in the claims (2% / 4% defaults, the P&L example) are exact in
binary64 as well, so the idealisation does not change any claim's outcome.
-/

namespace LLMTrading

/-- Python truthiness of an optional float: `None` and `0.0` are falsy
(`x if x else d` takes `d` in both cases). -/
def truthyQ : Option ℚ → Bool
  | none => false
  | some x => !(x == 0)

/-- ASCII upper-casing of one character. -/
def asciiUpper (c : Char) : Char :=
  if 'a' ≤ c ∧ c ≤ 'z' then Char.ofNat (c.toNat - 32) else c

/-- Python `str.upper()` restricted to the ASCII strings this system writes. -/
def pyUpper (s : String) : String := ⟨s.data.map asciiUpper⟩

/-- Bool test for one list occurring as a contiguous subsequence of another,
modelling Python's `in` operator on strings. -/
def hasSub (pat : List Char) : List Char → Bool
  | [] => pat.isEmpty
  | c :: rest => pat.isPrefixOf (c :: rest) || hasSub pat rest

/-- Embeds `utils/dataclass.py::Position` (entry_time abstracted to a tick
counter; it never influences control flow). -/
structure Position where
  entry_price : ℚ
  stop_loss : ℚ
  take_profit : ℚ
  size : ℚ
  entry_time : ℕ
  confidence : String
  direction : String
deriving DecidableEq

/-- One element of the persisted trade history, as written by
`DataPersistence.save_trade_decision`: the `TradeDecision` fields plus the
`pnl` key that is added only for CLOSE_* actions. -/
structure LedgerEntry where
  timestamp : ℕ
  action : String
  price : ℚ
  confidence : String
  stop_loss : ℚ
  take_profit : ℚ
  position_size : ℚ
  reasoning : String
  pnl : Option ℚ := none
deriving DecidableEq

/-- The reverse scan of `DataPersistence._calculate_pnl`: the most recent
history entry whose upper-cased action is BUY or SELL. -/
def lastOpenEntry (history : List LedgerEntry) : Option LedgerEntry :=
  history.reverse.find? (fun e => pyUpper e.action == "BUY" || pyUpper e.action == "SELL")

/-- Embeds `DataPersistence._calculate_pnl`. -/
def calculatePnl (history : List LedgerEntry) (exitPrice : ℚ) : ℚ :=
  match lastOpenEntry history with
  | none => 0
  | some e =>
    if pyUpper e.action == "BUY" then
      ((exitPrice - e.price) / e.price) * e.position_size * 100
    else
      ((e.price - exitPrice) / e.price) * e.position_size * 100

/-- Embeds `DataPersistence.save_trade_decision`: appends the decision to the
history, attaching a realized P&L exactly when the action contains CLOSE. -/
def saveTradeDecision (history : List LedgerEntry) (d : LedgerEntry) : List LedgerEntry :=
  let entry :=
    if hasSub "CLOSE".data (pyUpper d.action).data then
      { d with pnl := some (calculatePnl history d.price) }
    else
      { d with pnl := none }
  history ++ [entry]

/-- In-memory strategy state: the single optional open position plus the
append-only ledger (persistence is write-through, so the file contents and
the in-memory view coincide). -/
structure StratState where
  position : Option Position
  ledger : List LedgerEntry
deriving DecidableEq

/-- Embeds `TradingStrategy.close_position`: writes the CLOSE_* ledger entry
(through `saveTradeDecision`, which attaches the P&L) and clears the
position. `confidence if confidence else "HIGH"` is Python string
truthiness. -/
def closePosition (st : StratState) (currentPrice : ℚ) (now : ℕ) (reason : String) : StratState :=
  match st.position with
  | none => st
  | some pos =>
    let conf := if pos.confidence = "" then "HIGH" else pos.confidence
    let d : LedgerEntry :=
      { timestamp := now
        action := "CLOSE_" ++ pos.direction
        price := currentPrice
        confidence := conf
        stop_loss := pos.stop_loss
        take_profit := pos.take_profit
        position_size := pos.size
        reasoning := "Position closed: " ++ reason }
    { position := none, ledger := saveTradeDecision st.ledger d }

/-- The branch structure of `TradingStrategy.check_position`, as the reason
it would close with: LONG closes by stop_loss when `price <= stop_loss`,
else by take_profit when `price >= take_profit`; any non-LONG direction takes
the mirrored SHORT branch. -/
def breachReason (pos : Position) (price : ℚ) : Option String :=
  if pos.direction == "LONG" then
    if price ≤ pos.stop_loss then some "stop_loss"
    else if pos.take_profit ≤ price then some "take_profit"
    else none
  else
    if pos.stop_loss ≤ price then some "stop_loss"
    else if price ≤ pos.take_profit then some "take_profit"
    else none

/-- Embeds `TradingStrategy.check_position`: dispatches `closePosition` on
the breach reason computed by `breachReason` (a transparent split of the
source's if/elif chain into condition and action). -/
def checkPosition (st : StratState) (price : ℚ) (now : ℕ) : StratState :=
  match st.position with
  | none => st
  | some pos =>
    match breachReason pos price with
    | some r => closePosition st price now r
    | none => st

/-- Embeds `TradingStrategy._update_position_parameters` on the stop-loss
field: `if stop_loss and stop_loss != current.stop_loss` (Python float
truthiness, so `0.0` never updates). -/
def applySl (pos : Position) (sl : Option ℚ) : Position :=
  match sl with
  | some x => if x ≠ 0 ∧ x ≠ pos.stop_loss then { pos with stop_loss := x } else pos
  | none => pos

/-- Take-profit half of `TradingStrategy._update_position_parameters`. -/
def applyTp (pos : Position) (tp : Option ℚ) : Position :=
  match tp with
  | some x => if x ≠ 0 ∧ x ≠ pos.take_profit then { pos with take_profit := x } else pos
  | none => pos

/-- Embeds `TradingStrategy._update_position_parameters`: adjusts an open
position in place; no ledger entry is written for adjustments. -/
def updatePositionParameters (st : StratState) (sl tp : Option ℚ) : StratState :=
  match st.position with
  | none => st
  | some pos => { st with position := some (applyTp (applySl pos sl) tp) }

/-- Embeds `TradingStrategy._open_new_position` (callers guarantee the signal
is BUY or SELL, so the `ValueError` arm is unreachable): BUY opens LONG with
defaults `price*0.98` / `price*1.04`, SELL opens SHORT with `price*1.02` /
`price*0.96`; `x if x else default` is float truthiness for stop-loss and
take-profit while position size tests `is not None`. -/
def openNewPosition (st : StratState) (signal : String) (price : ℚ) (conf : String)
    (sl tp psize : Option ℚ) (now : ℕ) : StratState :=
  let dir := if signal == "BUY" then "LONG" else "SHORT"
  let defaultSl := if signal == "BUY" then price * (98 / 100) else price * (102 / 100)
  let defaultTp := if signal == "BUY" then price * (104 / 100) else price * (96 / 100)
  let finalSl := if truthyQ sl then sl.getD 0 else defaultSl
  let finalTp := if truthyQ tp then tp.getD 0 else defaultTp
  let finalSize := match psize with | some x => x | none => 1 / 10
  let pos : Position :=
    { entry_price := price
      stop_loss := finalSl
      take_profit := finalTp
      size := finalSize
      entry_time := now
      confidence := conf
      direction := dir }
  let d : LedgerEntry :=
    { timestamp := now
      action := pyUpper signal
      price := price
      confidence := conf
      stop_loss := finalSl
      take_profit := finalTp
      position_size := finalSize
      reasoning := "Opened new " ++ dir ++ " position" }
  { position := some pos, ledger := saveTradeDecision st.ledger d }

/-- The signal dispatch of `TradingStrategy.process_analysis` after
extraction: an open position is closed on CLOSE or adjusted otherwise; a
flat state opens on BUY/SELL, while CLOSE (warning) and anything else are
no-ops. -/
def processDecision (st : StratState) (price : ℚ) (signal conf : String)
    (sl tp psize : Option ℚ) (now : ℕ) : StratState :=
  match st.position with
  | some _ =>
    if signal == "CLOSE" then closePosition st price now "analysis_signal"
    else updatePositionParameters st sl tp
  | none =>
    if signal == "BUY" || signal == "SELL" then
      openNewPosition st signal price conf sl tp psize now
    else st

/-- One scheduler tick over the strategy state, as `main.periodic_check`
sequences it: the breach check against the latest close, then the signal
application with the same price. -/
def periodicTick (st : StratState) (price : ℚ) (signal conf : String)
    (sl tp psize : Option ℚ) (now : ℕ) : StratState :=
  let st1 := if st.position.isSome then checkPosition st price now else st
  processDecision st1 price signal conf sl tp psize now

/-! ## Claim C1: breach check thresholds -/

/-- C1, counterexample. The claim's biconditional "closes by take_profit
exactly when (LONG) price ≥ take_profit" fails on a position whose
thresholds are inverted (accepted as-is by the code): a LONG with
stop_loss 100 and take_profit 90 at price 95 satisfies price ≥ take_profit,
yet the elif chain closes it by stop_loss. -/
theorem c1_breach_counterexample :
    breachReason ⟨100, 100, 90, 1/10, 0, "HIGH", "LONG"⟩ 95 = some "stop_loss" ∧
    (90 : ℚ) ≤ 95 ∧
    breachReason ⟨100, 100, 90, 1/10, 0, "HIGH", "LONG"⟩ 95 ≠ some "take_profit" := by
  refine ⟨by decide, by norm_num, by decide⟩

/-- C1, amended: the stop-loss clause is an exact biconditional, but the
take-profit clause additionally requires that the stop-loss condition does
not hold (the elif gives stop_loss priority); no breach fires strictly
between the thresholds. -/
theorem c1_breach_amended (pos : Position) (price : ℚ) :
    (pos.direction = "LONG" →
      (breachReason pos price = some "stop_loss" ↔ price ≤ pos.stop_loss) ∧
      (breachReason pos price = some "take_profit" ↔
        pos.take_profit ≤ price ∧ pos.stop_loss < price) ∧
      (pos.stop_loss < price → price < pos.take_profit → breachReason pos price = none)) ∧
    (pos.direction ≠ "LONG" →
      (breachReason pos price = some "stop_loss" ↔ pos.stop_loss ≤ price) ∧
      (breachReason pos price = some "take_profit" ↔
        price ≤ pos.take_profit ∧ price < pos.stop_loss) ∧
      (pos.take_profit < price → price < pos.stop_loss → breachReason pos price = none)) := by
  unfold breachReason
  constructor
  · intro hdir
    have hb : (pos.direction == "LONG") = true := by simp [hdir]
    rw [if_pos hb]
    by_cases h1 : price ≤ pos.stop_loss <;> by_cases h2 : pos.take_profit ≤ price
    · exact ⟨by simp [h1], by simp [h1], fun h _ => absurd h1 (not_le.mpr h)⟩
    · exact ⟨by simp [h1], by simp [h1, h2], fun h _ => absurd h1 (not_le.mpr h)⟩
    · exact ⟨by simp [h1, h2], by simp [h1, h2]; exact not_le.mp h1,
        fun _ h => absurd h2 (not_le.mpr h)⟩
    · exact ⟨by simp [h1, h2], by simp [h1, h2], fun _ _ => by simp [h1, h2]⟩
  · intro hdir
    have hb : (pos.direction == "LONG") = false := by
      simpa using hdir
    rw [if_neg (by simp [hb])]
    by_cases h1 : pos.stop_loss ≤ price <;> by_cases h2 : price ≤ pos.take_profit
    · exact ⟨by simp [h1], by simp [h1], fun _ h => absurd h1 (not_le.mpr h)⟩
    · exact ⟨by simp [h1], by simp [h1, h2], fun _ h => absurd h1 (not_le.mpr h)⟩
    · exact ⟨by simp [h1, h2], by simp [h1, h2]; exact not_le.mp h1,
        fun h _ => absurd h2 (not_le.mpr h)⟩
    · exact ⟨by simp [h1, h2], by simp [h1, h2], fun _ _ => by simp [h1, h2]⟩

/-- C1 amended, witness: a normal LONG position at a price at its stop-loss
closes by stop_loss. -/
theorem c1_breach_amended_witness :
    breachReason ⟨100, 98, 104, 1/10, 0, "HIGH", "LONG"⟩ 97 = some "stop_loss" := by
  have h := (c1_breach_amended ⟨100, 98, 104, 1/10, 0, "HIGH", "LONG"⟩ 97).1 rfl
  exact h.1.mpr (by norm_num)

/-! ## Claim C3: opening defaults in the FLAT state -/

/-- C3: in the FLAT state, (BUY, HIGH, null, null, null) at price 100 opens a
LONG with stop_loss 98, take_profit 104, size 0.1 and appends exactly one
ledger entry with action BUY; the SELL case is the mirror (102 / 96,
SHORT). -/
theorem c3_flat_open_defaults (ledger : List LedgerEntry) (now : ℕ) :
    processDecision ⟨none, ledger⟩ 100 "BUY" "HIGH" none none none now =
      ⟨some ⟨100, 98, 104, 1/10, now, "HIGH", "LONG"⟩,
        ledger ++ [⟨now, "BUY", 100, "HIGH", 98, 104, 1/10, "Opened new LONG position", none⟩]⟩ ∧
    processDecision ⟨none, ledger⟩ 100 "SELL" "HIGH" none none none now =
      ⟨some ⟨100, 102, 96, 1/10, now, "HIGH", "SHORT"⟩,
        ledger ++ [⟨now, "SELL", 100, "HIGH", 102, 96, 1/10, "Opened new SHORT position", none⟩]⟩ := by
  constructor
  · simp only [processDecision, openNewPosition, saveTradeDecision, truthyQ]
    norm_num [show pyUpper "BUY" = "BUY" from rfl,
      show hasSub ['C', 'L', 'O', 'S', 'E'] ['B', 'U', 'Y'] = false from rfl]
    rfl
  · simp only [processDecision, openNewPosition, saveTradeDecision, truthyQ]
    norm_num [show pyUpper "SELL" = "SELL" from rfl,
      show hasSub ['C', 'L', 'O', 'S', 'E'] ['S', 'E', 'L', 'L'] = false from rfl,
      show ¬("SELL" = "BUY") from by decide]
    rfl

/-! ## Claim C10: zero-valued extraction results at the decision interface -/

/-- C10: an extracted stop_loss/take_profit of 0.0 is falsy in Python, so the
percentage defaults replace it at open and it causes no adjustment on an
open position, while a position_size of 0.0 is honored (only `None` takes
the 0.1 default). -/
theorem c10_zero_values (ledger : List LedgerEntry) (pos : Position) (price : ℚ)
    (conf : String) (now : ℕ) :
    (openNewPosition ⟨none, ledger⟩ "BUY" price conf (some 0) (some 0) (some 0) now).position =
      some ⟨price, price * (98/100), price * (104/100), 0, now, conf, "LONG"⟩ ∧
    updatePositionParameters ⟨some pos, ledger⟩ (some 0) (some 0) = ⟨some pos, ledger⟩ ∧
    (openNewPosition ⟨none, ledger⟩ "BUY" price conf (some 0) (some 0) none now).position =
      some ⟨price, price * (98/100), price * (104/100), 1/10, now, conf, "LONG"⟩ := by
  refine ⟨rfl, ?_, rfl⟩
  simp [updatePositionParameters, applySl, applyTp]

/-! ## Claim C2: signal application after a breach close -/

/-- C2, counterexample. A LONG (entry 100, SL 98, TP 104) at price 97 is
closed by the breach check, yet the same tick's BUY signal then opens a new
position and writes a second ledger entry, contrary to the claim that no new
position is opened and no further ledger entry is written that tick. -/
theorem c2_counterexample :
    (periodicTick ⟨some ⟨100, 98, 104, 1/10, 0, "HIGH", "LONG"⟩, []⟩
        97 "BUY" "HIGH" none none none 1).position.isSome = true ∧
    (periodicTick ⟨some ⟨100, 98, 104, 1/10, 0, "HIGH", "LONG"⟩, []⟩
        97 "BUY" "HIGH" none none none 1).ledger.map LedgerEntry.action =
      ["CLOSE_LONG", "BUY"] :=
  ⟨rfl, rfl⟩

/-- C2, amended: a breach closure makes the adjustment/close-signal path
unreachable (the position is gone), but signal application is not skipped:
the tick continues with the closed (FLAT) state, so a BUY/SELL signal opens
a new position and appends a second ledger entry in the same tick. -/
theorem c2_amended (st : StratState) (pos : Position) (price : ℚ) (signal conf : String)
    (sl tp psize : Option ℚ) (now : ℕ) (r : String)
    (hpos : st.position = some pos) (hbr : breachReason pos price = some r) :
    periodicTick st price signal conf sl tp psize now =
      processDecision (closePosition st price now r) price signal conf sl tp psize now ∧
    (closePosition st price now r).position = none ∧
    ((signal = "BUY" ∨ signal = "SELL") →
      (periodicTick st price signal conf sl tp psize now).position.isSome = true ∧
      (periodicTick st price signal conf sl tp psize now).ledger.length =
        st.ledger.length + 2) := by
  have hchk : checkPosition st price now = closePosition st price now r := by
    simp [checkPosition, hpos, hbr]
  have hcl : ∀ s : String, hasSub "CLOSE".data (pyUpper ("CLOSE_" ++ s)).data = true :=
    fun _ => rfl
  have hclose : closePosition st price now r =
      ⟨none, st.ledger ++
        [{ timestamp := now
           action := "CLOSE_" ++ pos.direction
           price := price
           confidence := if pos.confidence = "" then "HIGH" else pos.confidence
           stop_loss := pos.stop_loss
           take_profit := pos.take_profit
           position_size := pos.size
           reasoning := "Position closed: " ++ r
           pnl := some (calculatePnl st.ledger price) }]⟩ := by
    simp only [closePosition, hpos, saveTradeDecision, hcl, if_true]
  have htick : periodicTick st price signal conf sl tp psize now =
      processDecision (closePosition st price now r) price signal conf sl tp psize now := by
    simp [periodicTick, hpos, hchk]
  refine ⟨htick, by rw [hclose], ?_⟩
  intro hsig
  rw [htick, hclose]
  rcases hsig with h | h <;> subst h <;>
    simp [processDecision, openNewPosition, saveTradeDecision, List.length_append]

/-- C2 amended, witness: a take-profit breach at price 105 followed by a SELL
signal leaves an open (SHORT) position and two new ledger entries. -/
theorem c2_amended_witness :
    (periodicTick ⟨some ⟨100, 98, 104, 1/10, 0, "HIGH", "LONG"⟩, []⟩
        105 "SELL" "HIGH" none none none 1).position.isSome = true ∧
    (periodicTick ⟨some ⟨100, 98, 104, 1/10, 0, "HIGH", "LONG"⟩, []⟩
        105 "SELL" "HIGH" none none none 1).ledger.length = 2 := by
  have h := (c2_amended ⟨some ⟨100, 98, 104, 1/10, 0, "HIGH", "LONG"⟩, []⟩
    ⟨100, 98, 104, 1/10, 0, "HIGH", "LONG"⟩ 105 "SELL" "HIGH" none none none 1
    "take_profit" rfl (by decide)).2.2 (Or.inr rfl)
  simpa using h

/-! ## Claim C4: realized P&L at close -/

/-- C4: `save_trade_decision` attaches to every CLOSE_* entry the P&L
computed by `_calculate_pnl`, which is `((exit-entry)/entry)*size*100` for a
BUY (LONG) opener and `((entry-exit)/entry)*size*100` for a SELL (SHORT)
opener, taking entry price and size from the most recent BUY/SELL history
entry. (`e.price ≠ 0` records that the source would raise
`ZeroDivisionError` on a zero entry price.) -/
theorem c4_pnl (history : List LedgerEntry) (d e : LedgerEntry)
    (h : lastOpenEntry history = some e) (_hp : e.price ≠ 0)
    (hc : hasSub "CLOSE".data (pyUpper d.action).data = true) :
    saveTradeDecision history d =
      history ++ [{ d with pnl := some (calculatePnl history d.price) }] ∧
    calculatePnl history d.price =
      (if pyUpper e.action == "BUY" then
        ((d.price - e.price) / e.price) * e.position_size * 100
       else
        ((e.price - d.price) / e.price) * e.position_size * 100) := by
  constructor
  · simp [saveTradeDecision, hc]
  · simp [calculatePnl, h]

/-- C4, witness: a LONG entered at 100 and closed at 110 with size 0.2
records P&L 2.0. -/
theorem c4_pnl_witness :
    calculatePnl [⟨0, "BUY", 100, "HIGH", 98, 104, 1/5, "open", none⟩] 110 = 2 := by
  rw [(c4_pnl [⟨0, "BUY", 100, "HIGH", 98, 104, 1/5, "open", none⟩]
    ⟨1, "CLOSE_LONG", 110, "HIGH", 98, 104, 1/5, "close", none⟩
    ⟨0, "BUY", 100, "HIGH", 98, 104, 1/5, "open", none⟩
    rfl (by norm_num) rfl).2]
  norm_num [show pyUpper "BUY" = "BUY" from rfl]

/-! ## Claim C9: scheduler wake-up target -/

/-- Embeds the boundary computation of `main._wait_for_next_timeframe_step`:
`next_timeframe_start_ms = (current_time_ms // interval_ms + 1) * interval_ms`. -/
def nextTimeframeStartMs (nowMs intervalMs : ℕ) : ℕ :=
  (nowMs / intervalMs + 1) * intervalMs

/-- C9, counterexample. On an exact boundary (now = interval = 300000 ms) the
code's target is now + interval = 600000, whereas
`ceil(now / interval) × interval` is now itself (zero wait). -/
theorem c9_counterexample :
    nextTimeframeStartMs 300000 300000 = 600000 ∧
    (300000 + 300000 - 1) / 300000 * 300000 = 300000 ∧
    nextTimeframeStartMs 300000 300000 ≠ 300000 := by
  refine ⟨rfl, rfl, by decide⟩

/-- C9, amended: the target is `(now // interval + 1) × interval`, which is
always strictly in the future; it agrees with `ceil(now / interval) ×
interval` exactly when now is not already on a boundary, and on a boundary
it is now + interval (a full-interval wait, not zero). -/
theorem c9_amended (now i : ℕ) (h : 0 < i) :
    now < nextTimeframeStartMs now i ∧
    (¬ i ∣ now → nextTimeframeStartMs now i = (now + i - 1) / i * i) ∧
    (i ∣ now → nextTimeframeStartMs now i = now + i) := by
  unfold nextTimeframeStartMs
  have h1 := Nat.div_add_mod now i
  have h2 := Nat.mod_lt now h
  refine ⟨?_, ?_, ?_⟩
  · calc now = i * (now / i) + now % i := h1.symm
      _ < i * (now / i) + i := by omega
      _ = (now / i + 1) * i := by ring
  · intro hnd
    have hr : now % i ≠ 0 := fun hz => hnd (Nat.dvd_of_mod_eq_zero hz)
    have e1 : (now / i + 1) * i = i * (now / i) + i := by ring
    have e2 : now + i - 1 = (now % i - 1) + (now / i + 1) * i := by
      rw [e1]; omega
    have hstep : (now + i - 1) / i = now / i + 1 := by
      calc (now + i - 1) / i = ((now % i - 1) + (now / i + 1) * i) / i := by rw [e2]
        _ = (now % i - 1) / i + (now / i + 1) := Nat.add_mul_div_right _ _ h
        _ = 0 + (now / i + 1) := by rw [Nat.div_eq_of_lt (by omega)]
        _ = now / i + 1 := by omega
    rw [hstep]
  · intro hd
    have hc := Nat.div_mul_cancel hd
    calc (now / i + 1) * i = now / i * i + i := by ring
      _ = now + i := by rw [hc]

/-- C9 amended, witness: off a boundary (now = 450000, interval = 300000) the
target is the ceiling boundary 600000 and lies in the future. -/
theorem c9_amended_witness :
    450000 < nextTimeframeStartMs 450000 300000 ∧
    nextTimeframeStartMs 450000 300000 = (450000 + 300000 - 1) / 300000 * 300000 := by
  have h := c9_amended 450000 300000 (by norm_num)
  exact ⟨h.1, h.2.1 (by decide)⟩

/-! ## Signal extractor (`utils/position_extractor.py`)

The five regexes of `PositionExtractor` all start with a literal label, after
which matching is deterministic (the character classes that follow cannot
consume a character the next piece needs), so each is embedded as a
left-to-right search for the label followed by a direct parse of the tail. -/

/-- The ASCII members of the regex class `\s` (Python `str.strip` removes the
same set). -/
def isPySpace (c : Char) : Bool :=
  c == ' ' || c == '\t' || c == '\n' || c == '\r' || c == Char.ofNat 11 || c == Char.ofNat 12

/-- The regex class `[\s*]`. -/
def isSpaceStarChar (c : Char) : Bool := isPySpace c || c == '*'

/-- The regex class `[0-9,.]`. -/
def isNumChar (c : Char) : Bool := c.isDigit || c == ',' || c == '.'

/-- Matches the tail of the stop-loss/take-profit pattern at one position:
greedy skip of the spaces and asterisks, an optional dollar sign, then the
group, a nonempty greedy run of digits, commas and dots. -/
def matchNumberGroup (l : List Char) : Option (List Char) :=
  let l1 := l.dropWhile isSpaceStarChar
  let l2 := match l1 with | '$' :: r => r | _ => l1
  let g := l2.takeWhile isNumChar
  if g.isEmpty then none else some g

/-- `re.search`: try a match attempt at every start position, left to right,
returning the first success. -/
def searchWith (attempt : List Char → Option α) : List Char → Option α
  | [] => attempt []
  | c :: rest =>
    match attempt (c :: rest) with
    | some a => some a
    | none => searchWith attempt rest

/-- A match attempt that requires the literal label and hands the remainder
to the tail matcher. -/
def labelAttempt (label : List Char) (k : List Char → Option α) (l : List Char) : Option α :=
  if label.isPrefixOf l then k (l.drop label.length) else none

/-- Matches `[\s*]*\[?(KW1|KW2|...)]?` at one position: the group is the
first alternative that matches (the trailing optional bracket never affects
the group). -/
def matchKeywordGroup (kws : List (List Char)) (l : List Char) : Option (List Char) :=
  let l1 := l.dropWhile isSpaceStarChar
  let l2 := match l1 with | '[' :: r => r | _ => l1
  kws.findSome? (fun kw => if kw.isPrefixOf l2 then some kw else none)

/-- ASCII lower-casing, for the one case-insensitive pattern. -/
def asciiLower (c : Char) : Char :=
  if 'A' ≤ c ∧ c ≤ 'Z' then Char.ofNat (c.toNat + 32) else c

/-- Case-insensitive literal prefix test (`re.IGNORECASE`). -/
def isPrefixOfCI (label l : List Char) : Bool :=
  (l.take label.length).map asciiLower == label.map asciiLower

/-- Case-insensitive variant of `labelAttempt`. -/
def labelAttemptCI (label : List Char) (k : List Char → Option α) (l : List Char) : Option α :=
  if isPrefixOfCI label l then k (l.drop label.length) else none

/-- Matches `[\s*]*\[?(\d+(?:\.\d+)?)]?%?...` at one position: the group is
a digit run with an optional dot-digit-run continuation. -/
def matchPosGroup (l : List Char) : Option (List Char) :=
  let l1 := l.dropWhile isSpaceStarChar
  let l2 := match l1 with | '[' :: r => r | _ => l1
  let ip := l2.takeWhile Char.isDigit
  if ip.isEmpty then none
  else
    match l2.drop ip.length with
    | '.' :: r =>
      let fp := r.takeWhile Char.isDigit
      if fp.isEmpty then some ip else some (ip ++ '.' :: fp)
    | _ => some ip

/-- Decimal value of a digit run. -/
def digitsVal (l : List Char) : ℕ := l.foldl (fun n c => n * 10 + (c.toNat - 48)) 0

/-- Python's `float()` on the strings reachable here (digits and dots only
after comma removal): defined exactly when there is at least one digit and
at most one dot, so `float(".")` and `float("")` are errors (`none`). -/
def pythonFloat (l : List Char) : Option ℚ :=
  if l.isEmpty then none
  else if l.any (fun c => !(c.isDigit || c == '.')) then none
  else if 2 ≤ (l.filter (fun c => c == '.')).length then none
  else if !(l.any Char.isDigit) then none
  else
    let ip := l.takeWhile (fun c => !(c == '.'))
    let fp := match l.drop ip.length with | '.' :: r => r | _ => []
    some ((digitsVal ip : ℚ) + (digitsVal fp : ℚ) / (10 ^ fp.length : ℚ))

/-- The `signal_pattern` search (case sensitive, no IGNORECASE flag). -/
def searchSignal (text : List Char) : Option (List Char) :=
  searchWith (labelAttempt "Signal:".data
    (matchKeywordGroup ["CLOSE".data, "BUY".data, "SELL".data, "HOLD".data])) text

/-- The `confidence_pattern` search. -/
def searchConfidence (text : List Char) : Option (List Char) :=
  searchWith (labelAttempt "Confidence:".data
    (matchKeywordGroup ["HIGH".data, "MEDIUM".data, "LOW".data])) text

/-- The `stop_loss_pattern` search. -/
def searchStopLoss (text : List Char) : Option (List Char) :=
  searchWith (labelAttempt "Stop Loss:".data matchNumberGroup) text

/-- The `take_profit_pattern` search. -/
def searchTakeProfit (text : List Char) : Option (List Char) :=
  searchWith (labelAttempt "Take Profit:".data matchNumberGroup) text

/-- The `position_pattern` search (`re.IGNORECASE`). -/
def searchPositionSize (text : List Char) : Option (List Char) :=
  searchWith (labelAttemptCI "Position Size:".data matchPosGroup) text

/-- Embeds `PositionExtractor.extract_position_size`: the float conversion is
wrapped in `try/except`, so a parse failure degrades to `None`. -/
def extractPositionSize (text : List Char) : Option ℚ :=
  match searchPositionSize text with
  | none => none
  | some g =>
    match pythonFloat g with
    | none => none
    | some v => some (v / 100)

/-- The extractor's decision tuple. -/
structure Extraction where
  signal : List Char
  confidence : List Char
  stop_loss : Option ℚ
  take_profit : Option ℚ
  position_size : Option ℚ
deriving DecidableEq

/-- Embeds `PositionExtractor.extract_trading_info`. The stop-loss and
take-profit conversions `float(group.replace(',', ''))` are NOT wrapped in
`try/except`, so a group that `float()` rejects raises (`.error`), aborting
the whole call; the other three fields degrade to their defaults. -/
def extractTradingInfo (text : List Char) : Except Unit Extraction :=
  let slv : Except Unit (Option ℚ) :=
    match searchStopLoss text with
    | none => .ok none
    | some g =>
      match pythonFloat (g.filter (fun c => !(c == ','))) with
      | some v => .ok (some v)
      | none => .error ()
  let tpv : Except Unit (Option ℚ) :=
    match searchTakeProfit text with
    | none => .ok none
    | some g =>
      match pythonFloat (g.filter (fun c => !(c == ','))) with
      | some v => .ok (some v)
      | none => .error ()
  match slv, tpv with
  | .ok a, .ok b =>
    .ok ⟨(searchSignal text).getD "HOLD".data, (searchConfidence text).getD "MEDIUM".data,
      a, b, extractPositionSize text⟩
  | _, _ => .error ()

/-! ## Claim C5: extraction tolerance -/

/-- C5: on the input `"Stop Loss: ."` the stop-loss regex matches with group
`"."`, Python's `float(".")` raises `ValueError`, and the exception escapes
`extract_trading_info` — contradicting the claim that extraction never
raises and that a malformed stop_loss degrades to null. On text with no
labels at all the defaults (HOLD, MEDIUM, null, null, null) are returned as
claimed. -/
theorem c5_extractor_raises :
    searchStopLoss "Stop Loss: .".data = some ['.'] ∧
    pythonFloat ['.'] = none ∧
    extractTradingInfo "Stop Loss: .".data = .error () ∧
    extractTradingInfo "no labels here".data =
      .ok ⟨"HOLD".data, "MEDIUM".data, none, none, none⟩ :=
  ⟨rfl, rfl, rfl, rfl⟩

/-! ## Streaming response processor

Embeds `ModelManager._process_stream` together with the header gate of
`Logger.stream_info` and the marker stripping of
`MarketAnalyzer._clean_response`. Wall-clock reads (`datetime.now()`) are
modelled by a call counter `idx` and an arbitrary clock `clock : ℕ → ℤ`
giving the time (in seconds) of the n-th read; header timestamp text is an
arbitrary rendering `fmt : ℤ → List Char` of that time. -/

/-- Python `str.strip()` with no argument: whitespace removed from both
ends. -/
def pyStrip (l : List Char) : List Char :=
  ((l.dropWhile isPySpace).reverse.dropWhile isPySpace).reverse

/-- Logger-side state of `Logger.stream_info`: the `datetime.now()` call
counter, the `_logged_headers` dedup set, `_last_header_time` (initialised
at logger construction, so never absent), and the emitted console lines. -/
structure LogState where
  idx : ℕ
  loggedHeaders : List (List Char)
  lastHeaderTime : ℤ
  console : List (List Char)
deriving DecidableEq

/-- `is_header = "=== " in message`. -/
def isHeaderMsg (msg : List Char) : Bool := hasSub "=== ".data msg

/-- Embeds `Logger.stream_info`: empty-after-strip messages are dropped
before the clock is read; a header line is printed only when at least 5
seconds have passed since the last printed header and its exact stripped
text has not been printed before in this process run; suppressed headers
leave the dedup set and timer untouched. Rich markup applied to printed
headers is presentation only and is not modelled. -/
def streamInfo (clock : ℕ → ℤ) (ls : LogState) (msg : List Char) : LogState :=
  if (pyStrip msg).isEmpty then ls
  else
    let t := clock ls.idx
    let ls1 : LogState := { ls with idx := ls.idx + 1 }
    if isHeaderMsg msg then
      if t - ls.lastHeaderTime < 5 ∨ pyStrip msg ∈ ls.loggedHeaders then ls1
      else { ls1 with
        lastHeaderTime := t
        loggedHeaders := ls1.loggedHeaders ++ [pyStrip msg]
        console := ls1.console ++ [msg] }
    else { ls1 with console := ls1.console ++ [msg] }

/-- Stream-processing state of one `_process_stream` call: the two pending
buffers, the thinking flag, the accumulated `full_response`, and the logger
state it writes through. -/
structure PState where
  reasoningBuf : List Char
  responseBuf : List Char
  inThinking : Bool
  fullResponse : List Char
  log : LogState
deriving DecidableEq

/-- `f"=== Thinking Process ({timestamp})" ==="`. -/
def thinkingHeader (fmt : ℤ → List Char) (t : ℤ) : List Char :=
  "=== Thinking Process (".data ++ fmt t ++ ") ===".data

/-- `f"=== Analysis Results ({timestamp})" ==="`. -/
def analysisFooter (fmt : ℤ → List Char) (t : ℤ) : List Char :=
  "=== Analysis Results (".data ++ fmt t ++ ") ===".data

/-- First non-empty reasoning fragment outside thinking mode: read the
clock for the header text, send the header through `stream_info`, and append
`<think>{header}\n` to the transcript. -/
def emitThinkHeader (clock : ℕ → ℤ) (fmt : ℤ → List Char) (st : PState) : PState :=
  let t := clock st.log.idx
  let ls := { st.log with idx := st.log.idx + 1 }
  let header := thinkingHeader fmt t
  { st with
    inThinking := true
    fullResponse := st.fullResponse ++ "<think>".data ++ header ++ ['\n']
    log := streamInfo clock ls header }

/-- First non-empty content fragment while in thinking mode (and the
end-of-stream close-out): read the clock for the footer text, send it
through `stream_info`, and append `</think>\n{footer}\n`. -/
def emitAnalysisFooter (clock : ℕ → ℤ) (fmt : ℤ → List Char) (st : PState) : PState :=
  let t := clock st.log.idx
  let ls := { st.log with idx := st.log.idx + 1 }
  let footer := analysisFooter fmt t
  { st with
    inThinking := false
    fullResponse := st.fullResponse ++ "</think>\n".data ++ footer ++ ['\n']
    log := streamInfo clock ls footer }

/-- `min_content_length = 120`. -/
def minContentLength : ℕ := 120

/-- `paragraph_break = "\n\n"`. -/
def paragraphBreak : List Char := ['\n', '\n']

/-- Reasoning half of one loop iteration of `_process_stream`: empty
fragments are skipped; otherwise the thinking header is emitted on entry,
the fragment accumulates into the reasoning buffer, and the buffer is
flushed (stripped, two-space indented, newline terminated) once it holds a
paragraph break or 120 characters. -/
def processReasoning (clock : ℕ → ℤ) (fmt : ℤ → List Char) (st : PState)
    (r : List Char) : PState :=
  if r.isEmpty then st
  else
    let st1 := if st.inThinking then st else emitThinkHeader clock fmt st
    let buf := st1.reasoningBuf ++ r
    if hasSub paragraphBreak buf ∨ minContentLength ≤ buf.length then
      let msg := ' ' :: ' ' :: pyStrip buf
      { st1 with
        reasoningBuf := []
        fullResponse := st1.fullResponse ++ msg ++ ['\n']
        log := streamInfo clock st1.log msg }
    else { st1 with reasoningBuf := buf }

/-- Content half of one loop iteration of `_process_stream` (same buffering
policy on the response buffer, closing the thinking section first). -/
def processContent (clock : ℕ → ℤ) (fmt : ℤ → List Char) (st : PState)
    (c : List Char) : PState :=
  if c.isEmpty then st
  else
    let st1 := if st.inThinking then emitAnalysisFooter clock fmt st else st
    let buf := st1.responseBuf ++ c
    if hasSub paragraphBreak buf ∨ minContentLength ≤ buf.length then
      let msg := ' ' :: ' ' :: pyStrip buf
      { st1 with
        responseBuf := []
        fullResponse := st1.fullResponse ++ msg ++ ['\n']
        log := streamInfo clock st1.log msg }
    else { st1 with responseBuf := buf }

/-- One loop iteration: a delta may carry reasoning and content together;
the reasoning branch runs first. -/
def processChunk (clock : ℕ → ℤ) (fmt : ℤ → List Char) (st : PState)
    (ch : List Char × List Char) : PState :=
  processContent clock fmt (processReasoning clock fmt st ch.1) ch.2

/-- The code after the loop: both buffers are flushed if non-empty after
stripping, and a still-open thinking section is closed with the footer. -/
def finalize (clock : ℕ → ℤ) (fmt : ℤ → List Char) (st : PState) : PState :=
  let st1 :=
    if (pyStrip st.reasoningBuf).isEmpty then st
    else
      let msg := ' ' :: ' ' :: pyStrip st.reasoningBuf
      { st with
        fullResponse := st.fullResponse ++ msg ++ ['\n']
        log := streamInfo clock st.log msg }
  let st2 :=
    if (pyStrip st1.responseBuf).isEmpty then st1
    else
      let msg := ' ' :: ' ' :: pyStrip st1.responseBuf
      { st1 with
        fullResponse := st1.fullResponse ++ msg ++ ['\n']
        log := streamInfo clock st1.log msg }
  if st2.inThinking then emitAnalysisFooter clock fmt st2 else st2

/-- Initial state of one call: `full_response` starts from the caller's
buffer (`buffer.full_response if buffer.full_response else ""` — identical
either way). -/
def initPState (bufInit : List Char) (ls : LogState) : PState :=
  { reasoningBuf := [], responseBuf := [], inThinking := false
    fullResponse := bufInit, log := ls }

/-- Embeds a whole error-free `_process_stream` call over a fragment list. -/
def processStream (clock : ℕ → ℤ) (fmt : ℤ → List Char) (bufInit : List Char)
    (ls : LogState) (chunks : List (List Char × List Char)) : PState :=
  finalize clock fmt (chunks.foldl (processChunk clock fmt) (initPState bufInit ls))

/-- A stream event: a fragment, or the source raising mid-stream. -/
inductive StreamItem where
  | chunk (reasoning content : List Char)
  | raiseErr
deriving DecidableEq

/-- Result of a `_process_stream` call: the returned transcript (also
assigned to `buffer.full_response`), or the propagated exception. The
`except` clause logs and re-raises, so on error neither the post-loop
flush nor the `buffer.full_response` assignment runs. -/
inductive StreamResult where
  | ok (transcript : List Char) (log : LogState)
  | error (log : LogState)
deriving DecidableEq

/-- Interpreter of `_process_stream` over a stream that may raise. -/
def runItems (clock : ℕ → ℤ) (fmt : ℤ → List Char) :
    PState → List StreamItem → StreamResult
  | st, [] =>
    let st1 := finalize clock fmt st
    .ok st1.fullResponse st1.log
  | st, .chunk r c :: rest => runItems clock fmt (processChunk clock fmt st (r, c)) rest
  | st, .raiseErr :: _ => .error st.log

/-- The caller-visible `buffer.full_response` after the call: updated to the
transcript on normal completion, untouched when the exception propagated. -/
def bufferAfter (bufInit : List Char) : StreamResult → List Char
  | .ok t _ => t
  | .error _ => bufInit

/-- Whether the call raised. -/
def isStreamError : StreamResult → Bool
  | .ok _ _ => false
  | .error _ => true

/-- Scan for `</think>` and return the remainder after it, if present. -/
def dropToAfterClose : List Char → Option (List Char)
  | [] => none
  | c :: rest =>
    if "</think>".data.isPrefixOf (c :: rest) then some (rest.drop 7)
    else dropToAfterClose rest

/-- `dropToAfterClose` only ever returns a proper tail. -/
theorem dropToAfterClose_length {l s : List Char} (h : dropToAfterClose l = some s) :
    s.length + 8 ≤ l.length := by
  induction l with
  | nil => simp [dropToAfterClose] at h
  | cons c rest ih =>
    rw [dropToAfterClose] at h
    split at h
    · rename_i hpre
      have hlen : 8 ≤ (c :: rest).length := by
        have := List.IsPrefix.length_le (List.isPrefixOf_iff_prefix.mp hpre)
        simpa using this
      have hs : s = rest.drop 7 := by
        injection h with h'
        exact h'.symm
      subst hs
      simp only [List.length_drop, List.length_cons] at hlen ⊢
      omega
    · have := ih h
      simp only [List.length_cons]
      omega

/-- Fuel-indexed scanner for `re.sub(r'<think>.*?</think>', '', ...)`;
structural recursion on the fuel keeps it kernel-computable. Every
recursive call shrinks the list by at least one character, so with fuel
`l.length` (as `stripThink` supplies) the zero-fuel arm is unreachable. -/
def stripThinkAux : ℕ → List Char → List Char
  | 0, l => l
  | _ + 1, [] => []
  | fuel + 1, c :: rest =>
    if "<think>".data.isPrefixOf (c :: rest) then
      match dropToAfterClose (rest.drop 6) with
      | some s => stripThinkAux fuel s
      | none => c :: stripThinkAux fuel rest
    else c :: stripThinkAux fuel rest

/-- Embeds `re.sub(r'<think>.*?</think>', '', text, flags=re.DOTALL)`:
left-to-right, each `<think>` with a closing `</think>` later is removed
together with the enclosed text (non-greedy: up to the first close), and a
`<think>` with no later close is kept verbatim. -/
def stripThink (l : List Char) : List Char := stripThinkAux l.length l

/-- Embeds `MarketAnalyzer._clean_response`. -/
def cleanResponse (l : List Char) : List Char := pyStrip (stripThink l)

/-! ## Claim C7: behaviour on a mid-stream error -/

/-- C7, counterexample: with an unflushed reasoning fragment buffered and the
thinking section open, a mid-stream raise propagates immediately; the
caller-visible buffer keeps its initial value — the buffered text was not
flushed into it and no closing thinking marker was appended, contrary to
the claim. -/
theorem c7_counterexample :
    isStreamError (runItems (fun _ => 0) (fun _ => []) (initPState [] ⟨0, [], 0, []⟩)
      [.chunk "abc".data [], .raiseErr]) = true ∧
    bufferAfter [] (runItems (fun _ => 0) (fun _ => []) (initPState [] ⟨0, [], 0, []⟩)
      [.chunk "abc".data [], .raiseErr]) = [] ∧
    hasSub "abc".data (bufferAfter [] (runItems (fun _ => 0) (fun _ => [])
      (initPState [] ⟨0, [], 0, []⟩) [.chunk "abc".data [], .raiseErr])) = false ∧
    hasSub "</think>".data (bufferAfter [] (runItems (fun _ => 0) (fun _ => [])
      (initPState [] ⟨0, [], 0, []⟩) [.chunk "abc".data [], .raiseErr])) = false :=
  ⟨rfl, rfl, rfl, rfl⟩

/-- The interpreter maps any stream whose fragments are followed by a raise
to an error, from any starting state: the post-loop flush never runs. -/
theorem runItems_raise (clock : ℕ → ℤ) (fmt : ℤ → List Char) (st : PState)
    (pre : List (List Char × List Char)) (post : List StreamItem) :
    runItems clock fmt st (pre.map (fun p => StreamItem.chunk p.1 p.2) ++ .raiseErr :: post) =
      .error (pre.foldl (processChunk clock fmt) st).log := by
  induction pre generalizing st with
  | nil => rfl
  | cons p pre ih =>
    simp only [List.map_cons, List.cons_append, List.foldl_cons]
    exact ih (processChunk clock fmt st p)

/-- C7, amended: if the fragment source raises mid-stream, the processor
logs the error and propagates it immediately; the buffered text is not
flushed, no closing thinking marker is appended, and the caller-visible
buffer keeps its prior value. -/
theorem c7_error_amended (clock : ℕ → ℤ) (fmt : ℤ → List Char) (bufInit : List Char)
    (ls : LogState) (pre : List (List Char × List Char)) (post : List StreamItem) :
    isStreamError (runItems clock fmt (initPState bufInit ls)
      (pre.map (fun p => StreamItem.chunk p.1 p.2) ++ .raiseErr :: post)) = true ∧
    bufferAfter bufInit (runItems clock fmt (initPState bufInit ls)
      (pre.map (fun p => StreamItem.chunk p.1 p.2) ++ .raiseErr :: post)) = bufInit := by
  rw [runItems_raise]
  exact ⟨rfl, rfl⟩

/-! ## Claim C6: transcript versus answer-fragment concatenation -/

/-- C6, counterexample: the two partitions `["a\n\nb"]` and `["a\n\n", "b"]`
of the same answer text produce different cleaned transcripts (the second
partition flushes mid-stream, stripping the paragraph break and re-indenting)
— so the cleaned transcript neither equals the fragment concatenation nor is
it partition-invariant. -/
theorem c6_counterexample :
    "a\n\n".data ++ "b".data = "a\n\nb".data ∧
    cleanResponse (processStream (fun _ => 0) (fun _ => []) [] ⟨0, [], 0, []⟩
      [([], "a\n\nb".data)]).fullResponse = "a\n\nb".data ∧
    cleanResponse (processStream (fun _ => 0) (fun _ => []) [] ⟨0, [], 0, []⟩
      [([], "a\n\n".data), ([], "b".data)]).fullResponse = "a\n  b".data ∧
    "a\n  b".data ≠ "a\n\nb".data := by
  refine ⟨rfl, rfl, rfl, by decide⟩

/-- A substring of a list is a substring of any right-extension. -/
theorem hasSub_append_right {pat l₁ : List Char} (l₂ : List Char)
    (h : hasSub pat l₁ = true) : hasSub pat (l₁ ++ l₂) = true := by
  induction l₁ with
  | nil =>
    rw [hasSub] at h
    have hp : pat = [] := by simpa using h
    subst hp
    cases l₂ with
    | nil => rfl
    | cons c r =>
      rw [List.nil_append, hasSub]
      simp [List.isPrefixOf]
  | cons c r ih =>
    rw [hasSub] at h
    rw [List.cons_append, hasSub]
    rcases Bool.or_eq_true_iff.mp h with h1 | h1
    · have : pat <+: (c :: r) := List.isPrefixOf_iff_prefix.mp h1
      have : pat <+: (c :: r) ++ l₂ := this.trans (List.prefix_append _ _)
      rw [List.cons_append] at this
      rw [List.isPrefixOf_iff_prefix.mpr this]
      rfl
    · rw [ih h1]
      simp

/-- No substring occurrence in a list means none in any of its prefixes. -/
theorem hasSub_false_of_front {pat l₂ : List Char} (h : hasSub pat l₂ = false)
    {l₁ : List Char} (hp : l₁ <+: l₂) : hasSub pat l₁ = false := by
  obtain ⟨t, rfl⟩ := hp
  by_contra hne
  have htrue : hasSub pat l₁ = true := by
    cases hq : hasSub pat l₁
    · exact absurd hq hne
    · rfl
  rw [hasSub_append_right t htrue] at h
  cases h

/-- The marker scanner leaves any text without `<` untouched. -/
theorem stripThinkAux_eq_self :
    ∀ (fuel : ℕ) (l : List Char), '<' ∉ l → stripThinkAux fuel l = l := by
  intro fuel
  induction fuel with
  | zero => intro l _; rfl
  | succ n ih =>
    intro l hl
    cases l with
    | nil => rfl
    | cons c rest =>
      rw [stripThinkAux]
      have hc : c ≠ '<' := fun he => hl (by rw [he]; exact List.mem_cons_self _ _)
      have hpre : "<think>".data.isPrefixOf (c :: rest) = false := by
        show (('<' == c) && List.isPrefixOf "think>".data rest) = false
        have hb : ('<' == c) = false := beq_eq_false_iff_ne.mpr fun he => hc he.symm
        rw [hb, Bool.false_and]
      rw [if_neg (by simp [hpre])]
      have hrest : '<' ∉ rest := fun hm => hl (List.mem_cons_of_mem _ hm)
      rw [ih rest hrest]

/-- `stripThink` leaves any text without `<` untouched. -/
theorem stripThink_eq_self {l : List Char} (hl : '<' ∉ l) : stripThink l = l :=
  stripThinkAux_eq_self l.length l hl

/-- If a nonempty list is already stripped, padding it with two leading
spaces and one trailing newline strips back to the list itself. -/
theorem pyStrip_pad (total : List Char) (h3 : pyStrip total = total)
    (hne : total ≠ []) :
    pyStrip (' ' :: ' ' :: (total ++ ['\n'])) = total := by
  have hsfx := List.dropWhile_suffix (l := total) (p := isPySpace)
  have hlen1 : (pyStrip total).length ≤ (total.dropWhile isPySpace).length := by
    unfold pyStrip
    calc (((total.dropWhile isPySpace).reverse.dropWhile isPySpace).reverse).length
        = ((total.dropWhile isPySpace).reverse.dropWhile isPySpace).length :=
          List.length_reverse _
      _ ≤ ((total.dropWhile isPySpace).reverse).length :=
          (List.dropWhile_suffix _).length_le
      _ = (total.dropWhile isPySpace).length := List.length_reverse _
  have hA : total.dropWhile isPySpace = total := by
    apply hsfx.sublist.eq_of_length
    rw [h3] at hlen1
    exact le_antisymm hsfx.length_le hlen1
  have hB : total.reverse.dropWhile isPySpace = total.reverse := by
    have heq : total = (total.reverse.dropWhile isPySpace).reverse := by
      conv_lhs => rw [← h3]
      unfold pyStrip
      rw [hA]
    have := congrArg List.reverse heq
    simpa using this.symm
  obtain ⟨hd, tl, rfl⟩ := List.exists_cons_of_ne_nil hne
  have hhd : isPySpace hd = false := by
    by_contra hcon
    have hsp : isPySpace hd = true := by
      cases hq : isPySpace hd
      · exact absurd hq hcon
      · rfl
    rw [List.dropWhile_cons, hsp, if_pos rfl] at hA
    have hle := (List.dropWhile_suffix (l := tl) (p := isPySpace)).length_le
    rw [hA] at hle
    simp at hle
  show pyStrip (' ' :: ' ' :: ((hd :: tl) ++ ['\n'])) = hd :: tl
  unfold pyStrip
  have hdrop : List.dropWhile isPySpace (' ' :: ' ' :: ((hd :: tl) ++ ['\n']))
      = (hd :: tl) ++ ['\n'] := by
    rw [List.dropWhile_cons, if_pos (by rfl : isPySpace ' ' = true)]
    rw [List.dropWhile_cons, if_pos (by rfl : isPySpace ' ' = true)]
    rw [List.cons_append, List.dropWhile_cons]
    rw [hhd]
    simp
  rw [hdrop, List.reverse_append]
  show (List.dropWhile isPySpace ('\n' :: (hd :: tl).reverse)).reverse = hd :: tl
  rw [List.dropWhile_cons]
  rw [if_pos (show isPySpace '\n' = true from rfl), hB, List.reverse_reverse]

/-- Folding answer-only fragments whose running total never reaches a flush
threshold just accumulates the response buffer. -/
theorem c6_fold (clock : ℕ → ℤ) (fmt : ℤ → List Char) (frags : List (List Char)) :
    ∀ st : PState, st.inThinking = false →
    hasSub paragraphBreak (st.responseBuf ++ frags.flatten) = false →
    (st.responseBuf ++ frags.flatten).length < minContentLength →
    (frags.map (fun c => (([] : List Char), c))).foldl (processChunk clock fmt) st =
      { st with responseBuf := st.responseBuf ++ frags.flatten } := by
  induction frags with
  | nil =>
    intro st _ _ _
    simp
  | cons c cs ih =>
    intro st h1 h2 h3
    rw [List.flatten_cons, ← List.append_assoc] at h2 h3
    simp only [List.map_cons, List.foldl_cons]
    have hstep : processChunk clock fmt st ([], c) =
        { st with responseBuf := st.responseBuf ++ c } := by
      show processContent clock fmt (processReasoning clock fmt st []) c =
        { st with responseBuf := st.responseBuf ++ c }
      rw [processReasoning,
        if_pos (show ([] : List Char).isEmpty = true from rfl)]
      cases hce : c.isEmpty
      case true =>
        have hc0 : c = [] := by simpa using hce
        subst hc0
        simp [processContent]
      case false =>
        have hcond : ¬(hasSub paragraphBreak (st.responseBuf ++ c) = true ∨
            minContentLength ≤ (st.responseBuf ++ c).length) := by
          push_neg
          refine ⟨?_, ?_⟩
          · have hpre : st.responseBuf ++ c <+: st.responseBuf ++ c ++ cs.flatten :=
              List.prefix_append _ _
            simp [hasSub_false_of_front h2 hpre]
          · have hlen : (st.responseBuf ++ c).length ≤
                (st.responseBuf ++ c ++ cs.flatten).length := by
              simp only [List.length_append]
              omega
            exact lt_of_le_of_lt hlen h3
        rw [processContent, if_neg (by simp [hce]), h1]
        simp only [Bool.false_eq_true, if_false, if_neg hcond]
        rw [h1]
    rw [hstep]
    have hrec := ih { st with responseBuf := st.responseBuf ++ c } h1 h2 h3
    rw [hrec]
    simp [List.flatten_cons, List.append_assoc]

/-- Evaluation of the post-loop flush when only the response buffer holds
text and no thinking section is open. -/
theorem finalize_flat (clock : ℕ → ℤ) (fmt : ℤ → List Char) (rb fr : List Char)
    (ls : LogState) (hrb : (pyStrip rb).isEmpty = false) :
    finalize clock fmt ⟨[], rb, false, fr, ls⟩ =
      ⟨[], rb, false, fr ++ (' ' :: ' ' :: pyStrip rb) ++ ['\n'],
        streamInfo clock ls (' ' :: ' ' :: pyStrip rb)⟩ := by
  unfold finalize
  dsimp only
  rw [if_pos (show (pyStrip ([] : List Char)).isEmpty = true from rfl)]
  rw [if_neg (show ¬((pyStrip rb).isEmpty = true) from by simp [hrb])]
  rw [if_neg (show ¬(false = true) from by simp)]

/-- C6, amended: the claimed equality and partition-invariance do hold when
the answer stream never triggers a mid-stream flush and needs no stripping:
for answer-only fragments whose concatenation is shorter than 120
characters, contains no paragraph break, carries no surrounding whitespace,
and contains no `<`, the cleaned transcript equals the concatenation of the
answer fragments (and so depends only on the concatenation, not the
partition). In general the per-flush strip-and-indent makes both the
equality and partition-invariance fail, as the counterexample shows. -/
theorem c6_transcript_amended (clock : ℕ → ℤ) (fmt : ℤ → List Char) (ls : LogState)
    (frags : List (List Char))
    (h1 : (frags.flatten).length < 120)
    (h2 : hasSub paragraphBreak frags.flatten = false)
    (h3 : pyStrip frags.flatten = frags.flatten)
    (h4 : '<' ∉ frags.flatten) :
    cleanResponse (processStream clock fmt [] ls
      (frags.map (fun c => (([] : List Char), c)))).fullResponse = frags.flatten := by
  unfold processStream
  rw [c6_fold clock fmt frags (initPState [] ls) rfl
    (by simpa [initPState] using h2) (by simpa [initPState, minContentLength] using h1)]
  show cleanResponse (finalize clock fmt
    (⟨[], [] ++ frags.flatten, false, [], ls⟩ : PState)).fullResponse = frags.flatten
  rw [List.nil_append]
  by_cases hnil : frags.flatten = []
  · rw [hnil]
    rfl
  · have hrb : (pyStrip (frags.flatten)).isEmpty = false := by
      rw [h3]
      cases hq : frags.flatten
      · exact absurd hq hnil
      · rfl
    rw [finalize_flat clock fmt _ _ ls hrb]
    show cleanResponse ([] ++ (' ' :: ' ' :: pyStrip frags.flatten) ++ ['\n'])
      = frags.flatten
    rw [List.nil_append, h3]
    unfold cleanResponse
    have hmem : '<' ∉ ' ' :: ' ' :: (frags.flatten ++ ['\n']) := by
      intro hm
      rcases List.mem_cons.mp hm with h | h
      · cases h
      rcases List.mem_cons.mp h with h | h
      · cases h
      rcases List.mem_append.mp h with h | h
      · exact h4 h
      · rcases List.mem_singleton.mp h with h
        cases h
    rw [show (' ' :: ' ' :: frags.flatten) ++ ['\n']
        = ' ' :: ' ' :: (frags.flatten ++ ['\n']) by simp]
    rw [stripThink_eq_self hmem]
    exact pyStrip_pad _ h3 hnil

/-- C6 amended, witness: the partition `["hel", "lo"]` of `"hello"` yields
the cleaned transcript `"hello"`. -/
theorem c6_transcript_amended_witness :
    cleanResponse (processStream (fun _ => 0) (fun _ => []) [] ⟨0, [], 0, []⟩
      [([], "hel".data), ([], "lo".data)]).fullResponse = "hello".data := by
  have h := c6_transcript_amended (fun _ => 0) (fun _ => []) ⟨0, [], 0, []⟩
    ["hel".data, "lo".data] (by decide) (by decide) (by decide) (by decide)
  simpa using h

/-! ## Claim C8: header gating and content preservation

The stream-side observables (buffers, thinking flag, transcript, clock
position) are collected in a `CoreView`; showing two runs from logger states
that differ only in the header dedup set, the header timer and the console
produce equal core views is exactly the claim that header suppression never
loses transcript content. -/

/-- The components of a processing state that the transcript depends on. -/
structure CoreView where
  reasoningBuf : List Char
  responseBuf : List Char
  inThinking : Bool
  fullResponse : List Char
  idx : ℕ
deriving DecidableEq

/-- Projection of a `PState` to its transcript-relevant components. -/
def coreOf (s : PState) : CoreView :=
  ⟨s.reasoningBuf, s.responseBuf, s.inThinking, s.fullResponse, s.log.idx⟩

/-- `stream_info` advances the clock exactly when the message is non-empty
after stripping — independently of the dedup set and the header timer. -/
theorem streamInfo_idx (clock : ℕ → ℤ) (ls : LogState) (msg : List Char) :
    (streamInfo clock ls msg).idx =
      if (pyStrip msg).isEmpty then ls.idx else ls.idx + 1 := by
  unfold streamInfo
  by_cases h : (pyStrip msg).isEmpty = true
  · rw [if_pos h, if_pos h]
  · rw [if_neg h, if_neg h]
    dsimp only
    by_cases h2 : isHeaderMsg msg = true
    · rw [if_pos h2]
      by_cases h3 : clock ls.idx - ls.lastHeaderTime < 5 ∨ pyStrip msg ∈ ls.loggedHeaders
      · rw [if_pos h3]
      · rw [if_neg h3]
    · rw [if_neg h2]

/-- Unpacking of core-view equality into its five component equations. -/
theorem coreOf_eq_iff {s s' : PState} :
    coreOf s = coreOf s' ↔
      s.reasoningBuf = s'.reasoningBuf ∧ s.responseBuf = s'.responseBuf ∧
      s.inThinking = s'.inThinking ∧ s.fullResponse = s'.fullResponse ∧
      s.log.idx = s'.log.idx := by
  simp [coreOf, CoreView.mk.injEq]

/-- The thinking-header emission preserves core-view equality. -/
theorem emitThinkHeader_core (clock : ℕ → ℤ) (fmt : ℤ → List Char) {s s' : PState}
    (h : coreOf s = coreOf s') :
    coreOf (emitThinkHeader clock fmt s) = coreOf (emitThinkHeader clock fmt s') := by
  obtain ⟨h1, h2, h3, h4, h5⟩ := coreOf_eq_iff.mp h
  unfold emitThinkHeader
  rw [coreOf_eq_iff]
  refine ⟨by simpa using h1, by simpa using h2, rfl, by simp [h4, h5], ?_⟩
  show (streamInfo clock _ _).idx = (streamInfo clock _ _).idx
  rw [streamInfo_idx, streamInfo_idx]
  simp [h5]

/-- The analysis-footer emission preserves core-view equality. -/
theorem emitAnalysisFooter_core (clock : ℕ → ℤ) (fmt : ℤ → List Char) {s s' : PState}
    (h : coreOf s = coreOf s') :
    coreOf (emitAnalysisFooter clock fmt s) = coreOf (emitAnalysisFooter clock fmt s') := by
  obtain ⟨h1, h2, h3, h4, h5⟩ := coreOf_eq_iff.mp h
  unfold emitAnalysisFooter
  rw [coreOf_eq_iff]
  refine ⟨by simpa using h1, by simpa using h2, rfl, by simp [h4, h5], ?_⟩
  show (streamInfo clock _ _).idx = (streamInfo clock _ _).idx
  rw [streamInfo_idx, streamInfo_idx]
  simp [h5]

/-- The accumulate-then-flush step on the reasoning buffer preserves
core-view equality. -/
theorem flushR_core (clock : ℕ → ℤ) {u u' : PState} (h : coreOf u = coreOf u')
    (r : List Char) :
    coreOf (if hasSub paragraphBreak (u.reasoningBuf ++ r) = true ∨
        minContentLength ≤ (u.reasoningBuf ++ r).length then
      { u with reasoningBuf := []
               fullResponse := u.fullResponse ++
                 (' ' :: ' ' :: pyStrip (u.reasoningBuf ++ r)) ++ ['\n']
               log := streamInfo clock u.log (' ' :: ' ' :: pyStrip (u.reasoningBuf ++ r)) }
    else { u with reasoningBuf := u.reasoningBuf ++ r }) =
    coreOf (if hasSub paragraphBreak (u'.reasoningBuf ++ r) = true ∨
        minContentLength ≤ (u'.reasoningBuf ++ r).length then
      { u' with reasoningBuf := []
                fullResponse := u'.fullResponse ++
                  (' ' :: ' ' :: pyStrip (u'.reasoningBuf ++ r)) ++ ['\n']
                log := streamInfo clock u'.log (' ' :: ' ' :: pyStrip (u'.reasoningBuf ++ r)) }
    else { u' with reasoningBuf := u'.reasoningBuf ++ r }) := by
  obtain ⟨h1, h2, h3, h4, h5⟩ := coreOf_eq_iff.mp h
  rw [h1]
  by_cases hc : hasSub paragraphBreak (u'.reasoningBuf ++ r) = true ∨
      minContentLength ≤ (u'.reasoningBuf ++ r).length
  · rw [if_pos hc, if_pos hc, coreOf_eq_iff]
    refine ⟨rfl, by simpa using h2, by simpa using h3, by simp [h4], ?_⟩
    show (streamInfo clock _ _).idx = (streamInfo clock _ _).idx
    rw [streamInfo_idx, streamInfo_idx]
    simp [h5]
  · rw [if_neg hc, if_neg hc, coreOf_eq_iff]
    exact ⟨rfl, by simpa using h2, by simpa using h3, by simpa using h4, by simpa using h5⟩

/-- The accumulate-then-flush step on the response buffer preserves
core-view equality. -/
theorem flushC_core (clock : ℕ → ℤ) {u u' : PState} (h : coreOf u = coreOf u')
    (c : List Char) :
    coreOf (if hasSub paragraphBreak (u.responseBuf ++ c) = true ∨
        minContentLength ≤ (u.responseBuf ++ c).length then
      { u with responseBuf := []
               fullResponse := u.fullResponse ++
                 (' ' :: ' ' :: pyStrip (u.responseBuf ++ c)) ++ ['\n']
               log := streamInfo clock u.log (' ' :: ' ' :: pyStrip (u.responseBuf ++ c)) }
    else { u with responseBuf := u.responseBuf ++ c }) =
    coreOf (if hasSub paragraphBreak (u'.responseBuf ++ c) = true ∨
        minContentLength ≤ (u'.responseBuf ++ c).length then
      { u' with responseBuf := []
                fullResponse := u'.fullResponse ++
                  (' ' :: ' ' :: pyStrip (u'.responseBuf ++ c)) ++ ['\n']
                log := streamInfo clock u'.log (' ' :: ' ' :: pyStrip (u'.responseBuf ++ c)) }
    else { u' with responseBuf := u'.responseBuf ++ c }) := by
  obtain ⟨h1, h2, h3, h4, h5⟩ := coreOf_eq_iff.mp h
  rw [h2]
  by_cases hc : hasSub paragraphBreak (u'.responseBuf ++ c) = true ∨
      minContentLength ≤ (u'.responseBuf ++ c).length
  · rw [if_pos hc, if_pos hc, coreOf_eq_iff]
    refine ⟨by simpa using h1, rfl, by simpa using h3, by simp [h4], ?_⟩
    show (streamInfo clock _ _).idx = (streamInfo clock _ _).idx
    rw [streamInfo_idx, streamInfo_idx]
    simp [h5]
  · rw [if_neg hc, if_neg hc, coreOf_eq_iff]
    exact ⟨by simpa using h1, rfl, by simpa using h3, by simpa using h4, by simpa using h5⟩

/-- One reasoning step preserves core-view equality. -/
theorem processReasoning_core (clock : ℕ → ℤ) (fmt : ℤ → List Char) {s s' : PState}
    (h : coreOf s = coreOf s') (r : List Char) :
    coreOf (processReasoning clock fmt s r) = coreOf (processReasoning clock fmt s' r) := by
  obtain ⟨h1, h2, h3, h4, h5⟩ := coreOf_eq_iff.mp h
  unfold processReasoning
  by_cases hre : r.isEmpty = true
  · rw [if_pos hre, if_pos hre]
    exact h
  · rw [if_neg hre, if_neg hre]
    dsimp only
    have hcore1 : coreOf (if s.inThinking = true then s else emitThinkHeader clock fmt s)
        = coreOf (if s'.inThinking = true then s' else emitThinkHeader clock fmt s') := by
      rw [h3]
      by_cases ht : s'.inThinking = true
      · rw [if_pos ht, if_pos ht]
        exact h
      · rw [if_neg ht, if_neg ht]
        exact emitThinkHeader_core clock fmt h
    exact flushR_core clock hcore1 r

/-- One content step preserves core-view equality. -/
theorem processContent_core (clock : ℕ → ℤ) (fmt : ℤ → List Char) {s s' : PState}
    (h : coreOf s = coreOf s') (c : List Char) :
    coreOf (processContent clock fmt s c) = coreOf (processContent clock fmt s' c) := by
  obtain ⟨h1, h2, h3, h4, h5⟩ := coreOf_eq_iff.mp h
  unfold processContent
  by_cases hce : c.isEmpty = true
  · rw [if_pos hce, if_pos hce]
    exact h
  · rw [if_neg hce, if_neg hce]
    dsimp only
    have hcore1 : coreOf (if s.inThinking = true then emitAnalysisFooter clock fmt s else s)
        = coreOf (if s'.inThinking = true then emitAnalysisFooter clock fmt s' else s') := by
      rw [h3]
      by_cases ht : s'.inThinking = true
      · rw [if_pos ht, if_pos ht]
        exact emitAnalysisFooter_core clock fmt h
      · rw [if_neg ht, if_neg ht]
        exact h
    exact flushC_core clock hcore1 c

/-- One chunk preserves core-view equality. -/
theorem processChunk_core (clock : ℕ → ℤ) (fmt : ℤ → List Char) {s s' : PState}
    (h : coreOf s = coreOf s') (ch : List Char × List Char) :
    coreOf (processChunk clock fmt s ch) = coreOf (processChunk clock fmt s' ch) :=
  processContent_core clock fmt (processReasoning_core clock fmt h ch.1) ch.2

/-- The whole fragment fold preserves core-view equality. -/
theorem foldl_core (clock : ℕ → ℤ) (fmt : ℤ → List Char)
    (chunks : List (List Char × List Char)) :
    ∀ {s s' : PState}, coreOf s = coreOf s' →
    coreOf (chunks.foldl (processChunk clock fmt) s) =
      coreOf (chunks.foldl (processChunk clock fmt) s') := by
  induction chunks with
  | nil => intro s s' h; exact h
  | cons ch chunks ih =>
    intro s s' h
    simp only [List.foldl_cons]
    exact ih (processChunk_core clock fmt h ch)

/-- The final flush of the reasoning buffer preserves core-view equality. -/
theorem finalR_core (clock : ℕ → ℤ) {u u' : PState} (h : coreOf u = coreOf u') :
    coreOf (if (pyStrip u.reasoningBuf).isEmpty = true then u
      else { u with
        fullResponse := u.fullResponse ++ (' ' :: ' ' :: pyStrip u.reasoningBuf) ++ ['\n']
        log := streamInfo clock u.log (' ' :: ' ' :: pyStrip u.reasoningBuf) }) =
    coreOf (if (pyStrip u'.reasoningBuf).isEmpty = true then u'
      else { u' with
        fullResponse := u'.fullResponse ++ (' ' :: ' ' :: pyStrip u'.reasoningBuf) ++ ['\n']
        log := streamInfo clock u'.log (' ' :: ' ' :: pyStrip u'.reasoningBuf) }) := by
  obtain ⟨h1, h2, h3, h4, h5⟩ := coreOf_eq_iff.mp h
  rw [h1]
  by_cases hq : (pyStrip u'.reasoningBuf).isEmpty = true
  · rw [if_pos hq, if_pos hq]
    exact h
  · rw [if_neg hq, if_neg hq, coreOf_eq_iff]
    refine ⟨by simp, by simpa using h2, by simpa using h3, by simp [h4], ?_⟩
    show (streamInfo clock _ _).idx = (streamInfo clock _ _).idx
    rw [streamInfo_idx, streamInfo_idx]
    simp [h5]

/-- The final flush of the response buffer preserves core-view equality. -/
theorem finalC_core (clock : ℕ → ℤ) {u u' : PState} (h : coreOf u = coreOf u') :
    coreOf (if (pyStrip u.responseBuf).isEmpty = true then u
      else { u with
        fullResponse := u.fullResponse ++ (' ' :: ' ' :: pyStrip u.responseBuf) ++ ['\n']
        log := streamInfo clock u.log (' ' :: ' ' :: pyStrip u.responseBuf) }) =
    coreOf (if (pyStrip u'.responseBuf).isEmpty = true then u'
      else { u' with
        fullResponse := u'.fullResponse ++ (' ' :: ' ' :: pyStrip u'.responseBuf) ++ ['\n']
        log := streamInfo clock u'.log (' ' :: ' ' :: pyStrip u'.responseBuf) }) := by
  obtain ⟨h1, h2, h3, h4, h5⟩ := coreOf_eq_iff.mp h
  rw [h2]
  by_cases hq : (pyStrip u'.responseBuf).isEmpty = true
  · rw [if_pos hq, if_pos hq]
    exact h
  · rw [if_neg hq, if_neg hq, coreOf_eq_iff]
    refine ⟨by simpa using h1, by simp, by simpa using h3, by simp [h4], ?_⟩
    show (streamInfo clock _ _).idx = (streamInfo clock _ _).idx
    rw [streamInfo_idx, streamInfo_idx]
    simp [h5]

/-- The end-of-stream footer close-out preserves core-view equality. -/
theorem finalFooter_core (clock : ℕ → ℤ) (fmt : ℤ → List Char) {u u' : PState}
    (h : coreOf u = coreOf u') :
    coreOf (if u.inThinking = true then emitAnalysisFooter clock fmt u else u) =
    coreOf (if u'.inThinking = true then emitAnalysisFooter clock fmt u' else u') := by
  obtain ⟨h1, h2, h3, h4, h5⟩ := coreOf_eq_iff.mp h
  rw [h3]
  by_cases ht : u'.inThinking = true
  · rw [if_pos ht, if_pos ht]
    exact emitAnalysisFooter_core clock fmt h
  · rw [if_neg ht, if_neg ht]
    exact h

/-- The end-of-stream close-out preserves core-view equality. -/
theorem finalize_core (clock : ℕ → ℤ) (fmt : ℤ → List Char) {s s' : PState}
    (h : coreOf s = coreOf s') :
    coreOf (finalize clock fmt s) = coreOf (finalize clock fmt s') := by
  unfold finalize
  dsimp only
  exact finalFooter_core clock fmt (finalC_core clock (finalR_core clock h))

/-- C8: a header line reaches the console only if at least 5 seconds have
passed since the last printed header of any kind AND its exact stripped text
has not been printed earlier in this process run; and suppression never
loses content: two runs from logger states that differ only in the
suppression state (dedup set, header timer, console) produce identical
transcripts. -/
theorem c8_header_gate :
    (∀ (clock : ℕ → ℤ) (ls : LogState) (msg : List Char),
      isHeaderMsg msg = true →
      (streamInfo clock ls msg).console ≠ ls.console →
      5 ≤ clock ls.idx - ls.lastHeaderTime ∧ pyStrip msg ∉ ls.loggedHeaders) ∧
    (∀ (clock : ℕ → ℤ) (fmt : ℤ → List Char) (chunks : List (List Char × List Char))
      (bufInit : List Char) (idx : ℕ) (hs1 hs2 : List (List Char)) (t1 t2 : ℤ)
      (c1 c2 : List (List Char)),
      (processStream clock fmt bufInit ⟨idx, hs1, t1, c1⟩ chunks).fullResponse =
      (processStream clock fmt bufInit ⟨idx, hs2, t2, c2⟩ chunks).fullResponse) := by
  constructor
  · intro clock ls msg hh hcon
    unfold streamInfo at hcon
    by_cases hq : (pyStrip msg).isEmpty = true
    · rw [if_pos hq] at hcon
      exact absurd rfl hcon
    · rw [if_neg hq] at hcon
      dsimp only at hcon
      rw [if_pos hh] at hcon
      by_cases hg : clock ls.idx - ls.lastHeaderTime < 5 ∨ pyStrip msg ∈ ls.loggedHeaders
      · rw [if_pos hg] at hcon
        exact absurd rfl hcon
      · push_neg at hg
        exact hg
  · intro clock fmt chunks bufInit idx hs1 hs2 t1 t2 c1 c2
    unfold processStream
    have hinit : coreOf (initPState bufInit ⟨idx, hs1, t1, c1⟩) =
        coreOf (initPState bufInit ⟨idx, hs2, t2, c2⟩) := by
      rw [coreOf_eq_iff]
      exact ⟨rfl, rfl, rfl, rfl, rfl⟩
    have h := finalize_core clock fmt (foldl_core clock fmt chunks hinit)
    have h2 := congrArg CoreView.fullResponse h
    simpa [coreOf] using h2

/-- C8, witness: from a logger state whose last header lies 10 seconds in
the past and whose dedup set is empty, the emission of a thinking header
certifies both gate conditions. -/
theorem c8_header_gate_witness :
    (5 : ℤ) ≤ 0 - (-10) ∧
    pyStrip "=== Thinking Process (x) ===".data ∉ ([] : List (List Char)) := by
  have h := c8_header_gate.1 (fun _ => 0) ⟨0, [], -10, []⟩
    "=== Thinking Process (x) ===".data rfl (by decide)
  exact h

end LLMTrading
